import Mathlib

/-!
Shallow embedding of `MAVLink/mavlink_conversions.h` (orientation conversions
between quaternions, 3x3 rotation matrices and ZYX Euler angles).

C `float`/`double` arithmetic is modelled over `ℝ`; `asin` is `Real.arcsin`,
`atan2f` is the argument of the complex number `x + y*I`, `sqrtf` is
`Real.sqrt`.  Caller-provided output arrays are modelled as total functions
`ℕ → ℝ` (resp. `ℕ → ℕ → ℝ`) threaded through explicit pointwise updates, so
that write indices and frame conditions are visible in the model.
-/

open Real

noncomputable section

/-- Store `v` at index `i` of a flat array. -/
def upd (q : ℕ → ℝ) (i : ℕ) (v : ℝ) : ℕ → ℝ :=
  fun n => if n = i then v else q n

/-- Store `v` at entry `(i, j)` of a 3x3 array. -/
def updM (d : ℕ → ℕ → ℝ) (i j : ℕ) (v : ℝ) : ℕ → ℕ → ℝ :=
  fun a b => if a = i ∧ b = j then v else d a b

/-- C `atan2f(y, x)`: the angle in `(-π, π]` of the point `(x, y)`,
with `atan2 0 0 = 0`, as computed by `Complex.arg (x + y*I)`. -/
def atan2 (y x : ℝ) : ℝ := Complex.arg ⟨x, y⟩

/-- `mavlink_quaternion_to_dcm`: writes the nine matrix entries into the
caller-provided array `dcm`, reading the quaternion as `[w, x, y, z]`. -/
def mavlink_quaternion_to_dcm (quaternion : ℕ → ℝ) (dcm : ℕ → ℕ → ℝ) :
    ℕ → ℕ → ℝ :=
  let a := quaternion 0
  let b := quaternion 1
  let c := quaternion 2
  let d := quaternion 3
  let aSq := a * a
  let bSq := b * b
  let cSq := c * c
  let dSq := d * d
  let m0 := updM dcm 0 0 (aSq + bSq - cSq - dSq)
  let m1 := updM m0 0 1 (2 * (b * c - a * d))
  let m2 := updM m1 0 2 (2 * (a * c + b * d))
  let m3 := updM m2 1 0 (2 * (b * c + a * d))
  let m4 := updM m3 1 1 (aSq - bSq + cSq - dSq)
  let m5 := updM m4 1 2 (2 * (c * d - a * b))
  let m6 := updM m5 2 0 (2 * (b * d - a * c))
  let m7 := updM m6 2 1 (2 * (a * b + c * d))
  updM m7 2 2 (aSq - bSq - cSq + dSq)

/-- `mavlink_dcm_to_euler`: returns `(roll, pitch, yaw)`.  `M_PI_2` is
`π / 2` and the gimbal-lock threshold is the literal `1.0e-3f`. -/
def mavlink_dcm_to_euler (dcm : ℕ → ℕ → ℝ) : ℝ × ℝ × ℝ :=
  let theta := Real.arcsin (-(dcm 2 0))
  if |theta - π / 2| < 1e-3 then
    let phi : ℝ := 0
    let psi := atan2 (dcm 1 2 - dcm 0 1) (dcm 0 2 + dcm 1 1) + phi
    (phi, theta, psi)
  else if |theta + π / 2| < 1e-3 then
    let phi : ℝ := 0
    let psi := atan2 (dcm 1 2 - dcm 0 1) (dcm 0 2 + dcm 1 1 - phi)
    (phi, theta, psi)
  else
    let phi := atan2 (dcm 2 1) (dcm 2 2)
    let psi := atan2 (dcm 1 0) (dcm 0 0)
    (phi, theta, psi)

/-- The branch structure of `mavlink_dcm_to_euler`: the gimbal-lock handling
is entered when the first `if` fires, or the first fails and the `else if`
fires. -/
def gimbal_taken (dcm : ℕ → ℕ → ℝ) : Prop :=
  let theta := Real.arcsin (-(dcm 2 0))
  |theta - π / 2| < 1e-3 ∨ (¬(|theta - π / 2| < 1e-3) ∧ |theta + π / 2| < 1e-3)

/-- `mavlink_euler_to_quaternion`: writes `[w, x, y, z]` into the
caller-provided array `quaternion`. -/
def mavlink_euler_to_quaternion (roll pitch yaw : ℝ) (quaternion : ℕ → ℝ) :
    ℕ → ℝ :=
  let cosPhi_2 := Real.cos (roll / 2)
  let sinPhi_2 := Real.sin (roll / 2)
  let cosTheta_2 := Real.cos (pitch / 2)
  let sinTheta_2 := Real.sin (pitch / 2)
  let cosPsi_2 := Real.cos (yaw / 2)
  let sinPsi_2 := Real.sin (yaw / 2)
  let q0 := upd quaternion 0
    (cosPhi_2 * cosTheta_2 * cosPsi_2 + sinPhi_2 * sinTheta_2 * sinPsi_2)
  let q1 := upd q0 1
    (sinPhi_2 * cosTheta_2 * cosPsi_2 - cosPhi_2 * sinTheta_2 * sinPsi_2)
  let q2 := upd q1 2
    (cosPhi_2 * sinTheta_2 * cosPsi_2 + sinPhi_2 * cosTheta_2 * sinPsi_2)
  upd q2 3
    (cosPhi_2 * cosTheta_2 * sinPsi_2 - sinPhi_2 * sinTheta_2 * cosPsi_2)

/-- The `for(i = 1; i < 3; i++)` scan of `mavlink_dcm_to_quaternion`,
unrolled: start at `dcm_i = 0`, replace only on strict `>`. -/
def dcm_i_sel (dcm : ℕ → ℕ → ℝ) : ℕ :=
  let i1 := if dcm 1 1 > dcm 0 0 then 1 else 0
  if dcm 2 2 > dcm i1 i1 then 2 else i1

/-- `mavlink_dcm_to_quaternion`: the matrix array is threaded through
unchanged (the body contains no store to `dcm`); the quaternion array
receives the four writes of whichever branch runs. -/
def mavlink_dcm_to_quaternion (dcm : ℕ → ℕ → ℝ) (quaternion : ℕ → ℝ) :
    (ℕ → ℕ → ℝ) × (ℕ → ℝ) :=
  let tr := dcm 0 0 + dcm 1 1 + dcm 2 2
  if tr > 0 then
    let s := Real.sqrt (tr + 1)
    let qa := upd quaternion 0 (s * 0.5)
    let s2 := 0.5 / s
    let qb := upd qa 1 ((dcm 2 1 - dcm 1 2) * s2)
    let qc := upd qb 2 ((dcm 0 2 - dcm 2 0) * s2)
    let qd := upd qc 3 ((dcm 1 0 - dcm 0 1) * s2)
    (dcm, qd)
  else
    let dcm_i := dcm_i_sel dcm
    let dcm_j := (dcm_i + 1) % 3
    let dcm_k := (dcm_i + 2) % 3
    let s := Real.sqrt ((dcm dcm_i dcm_i - dcm dcm_j dcm_j -
      dcm dcm_k dcm_k) + 1)
    let qa := upd quaternion (dcm_i + 1) (s * 0.5)
    let s2 := 0.5 / s
    let qb := upd qa (dcm_j + 1) ((dcm dcm_i dcm_j + dcm dcm_j dcm_i) * s2)
    let qc := upd qb (dcm_k + 1) ((dcm dcm_k dcm_i + dcm dcm_i dcm_k) * s2)
    let qd := upd qc 0 ((dcm dcm_k dcm_j - dcm dcm_j dcm_k) * s2)
    (dcm, qd)

/-- The `dcm_j = (dcm_i + 1) % 3` of `mavlink_dcm_to_quaternion`. -/
def dcm_j_sel (dcm : ℕ → ℕ → ℝ) : ℕ :=
  (dcm_i_sel dcm + 1) % 3

/-- The `dcm_k = (dcm_i + 2) % 3` of `mavlink_dcm_to_quaternion`. -/
def dcm_k_sel (dcm : ℕ → ℕ → ℝ) : ℕ :=
  (dcm_i_sel dcm + 2) % 3

/-- The value `s = sqrtf((dcm[i][i] - dcm[j][j] - dcm[k][k]) + 1.0f)`
computed in the non-positive-trace branch of `mavlink_dcm_to_quaternion`. -/
def shepherd_s (dcm : ℕ → ℕ → ℝ) : ℝ :=
  Real.sqrt ((dcm (dcm_i_sel dcm) (dcm_i_sel dcm) -
    dcm (dcm_j_sel dcm) (dcm_j_sel dcm) -
    dcm (dcm_k_sel dcm) (dcm_k_sel dcm)) + 1)

/-- `mavlink_euler_to_dcm`: writes the ZYX rotation matrix into the
caller-provided array `dcm`. -/
def mavlink_euler_to_dcm (roll pitch yaw : ℝ) (dcm : ℕ → ℕ → ℝ) :
    ℕ → ℕ → ℝ :=
  let cosPhi := Real.cos roll
  let sinPhi := Real.sin roll
  let cosThe := Real.cos pitch
  let sinThe := Real.sin pitch
  let cosPsi := Real.cos yaw
  let sinPsi := Real.sin yaw
  let m0 := updM dcm 0 0 (cosThe * cosPsi)
  let m1 := updM m0 0 1 (-cosPhi * sinPsi + sinPhi * sinThe * cosPsi)
  let m2 := updM m1 0 2 (sinPhi * sinPsi + cosPhi * sinThe * cosPsi)
  let m3 := updM m2 1 0 (cosThe * sinPsi)
  let m4 := updM m3 1 1 (cosPhi * cosPsi + sinPhi * sinThe * sinPsi)
  let m5 := updM m4 1 2 (-sinPhi * cosPsi + cosPhi * sinThe * sinPsi)
  let m6 := updM m5 2 0 (-sinThe)
  let m7 := updM m6 2 1 (sinPhi * cosThe)
  updM m7 2 2 (cosPhi * cosThe)

/-- The 3x3 identity matrix, as a flat array model. -/
def idMat : ℕ → ℕ → ℝ :=
  fun i j => if i = j then 1 else 0

/-- The quaternion `(1, 0, 0, 0)` (the null rotation), as a flat array. -/
def unitQ : ℕ → ℝ :=
  fun n => if n = 0 then 1 else 0

/-- An all-zero quaternion array (used as caller-provided initial storage). -/
def zeroQ : ℕ → ℝ :=
  fun _ => 0

/-- An all-zero matrix array (used as caller-provided initial storage). -/
def zeroM : ℕ → ℕ → ℝ :=
  fun _ _ => 0

/-- A gimbal-locked rotation matrix: pitch is exactly `π/2`
(entry `(2,0)` is `-1`; the remaining entries used by
`mavlink_dcm_to_euler` are `0`). -/
def gimbalMat : ℕ → ℕ → ℝ :=
  fun i j => if i = 2 ∧ j = 0 then -1 else 0

/-- The rotation by `π` about the x-axis: `diag(1, -1, -1)`, whose trace
is `-1 ≤ 0`. -/
def diagXMat : ℕ → ℕ → ℝ :=
  fun i j => if i = j then (if i = 0 then 1 else -1) else 0

/-- The rotation by `π` about the z-axis: `diag(-1, -1, 1)`, whose trace
is `-1 ≤ 0` and whose largest diagonal entry is at index `2`. -/
def diagZMat : ℕ → ℕ → ℝ :=
  fun i j => if i = j then (if i = 2 then 1 else -1) else 0

end

/-! ### Helper lemmas about `atan2` -/

lemma atan2_mul_sin_cos {c t : ℝ} (hc : 0 < c) (ht : t ∈ Set.Ioc (-π) π) :
    atan2 (c * Real.sin t) (c * Real.cos t) = t := by
  have h : (⟨c * Real.cos t, c * Real.sin t⟩ : ℂ) =
      (c : ℂ) * ((Real.cos t : ℂ) + (Real.sin t : ℂ) * Complex.I) := by
    simp [Complex.ext_iff, Complex.cos_ofReal_re, Complex.sin_ofReal_re]
  rw [atan2, h, Complex.ofReal_cos, Complex.ofReal_sin,
    Complex.arg_mul_cos_add_sin_mul_I hc ht]

lemma atan2_sin_cos {t : ℝ} (ht : t ∈ Set.Ioc (-π) π) :
    atan2 (Real.sin t) (Real.cos t) = t := by
  simpa using atan2_mul_sin_cos one_pos ht

lemma atan2_zero_one : atan2 0 1 = 0 := by
  have h : (⟨1, 0⟩ : ℂ) = 1 := by
    simp [Complex.ext_iff]
  rw [atan2, h, Complex.arg_one]

lemma atan2_zero_zero : atan2 0 0 = 0 := by
  have h : (⟨0, 0⟩ : ℂ) = 0 := by
    simp [Complex.ext_iff]
  rw [atan2, h, Complex.arg_zero]

/-! ### Evaluation lemmas -/

lemma euler_to_quaternion_w (roll pitch yaw : ℝ) (q0 : ℕ → ℝ) :
    mavlink_euler_to_quaternion roll pitch yaw q0 0 =
      Real.cos (roll / 2) * Real.cos (pitch / 2) * Real.cos (yaw / 2) +
      Real.sin (roll / 2) * Real.sin (pitch / 2) * Real.sin (yaw / 2) := by
  simp [mavlink_euler_to_quaternion, upd]

lemma euler_to_quaternion_x (roll pitch yaw : ℝ) (q0 : ℕ → ℝ) :
    mavlink_euler_to_quaternion roll pitch yaw q0 1 =
      Real.sin (roll / 2) * Real.cos (pitch / 2) * Real.cos (yaw / 2) -
      Real.cos (roll / 2) * Real.sin (pitch / 2) * Real.sin (yaw / 2) := by
  simp [mavlink_euler_to_quaternion, upd]

lemma euler_to_quaternion_y (roll pitch yaw : ℝ) (q0 : ℕ → ℝ) :
    mavlink_euler_to_quaternion roll pitch yaw q0 2 =
      Real.cos (roll / 2) * Real.sin (pitch / 2) * Real.cos (yaw / 2) +
      Real.sin (roll / 2) * Real.cos (pitch / 2) * Real.sin (yaw / 2) := by
  simp [mavlink_euler_to_quaternion, upd]

lemma euler_to_quaternion_z (roll pitch yaw : ℝ) (q0 : ℕ → ℝ) :
    mavlink_euler_to_quaternion roll pitch yaw q0 3 =
      Real.cos (roll / 2) * Real.cos (pitch / 2) * Real.sin (yaw / 2) -
      Real.sin (roll / 2) * Real.sin (pitch / 2) * Real.cos (yaw / 2) := by
  simp [mavlink_euler_to_quaternion, upd]

/-! ### Claim theorems -/

/-- C4: `mavlink_quaternion_to_dcm` writes exactly the standard
quaternion-to-DCM expansion: `R00 = w²+x²-y²-z²`, `R01 = 2(xy-wz)`,
`R02 = 2(wy+xz)`, `R10 = 2(xy+wz)`, `R11 = w²-x²+y²-z²`, `R12 = 2(yz-wx)`,
`R20 = 2(xz-wy)`, `R21 = 2(wx+yz)`, `R22 = w²-x²-y²+z²`, for every
quaternion `(w, x, y, z)`. -/
theorem quaternion_to_dcm_entries (q : ℕ → ℝ) (d0 : ℕ → ℕ → ℝ) :
    mavlink_quaternion_to_dcm q d0 0 0
        = (q 0)^2 + (q 1)^2 - (q 2)^2 - (q 3)^2 ∧
    mavlink_quaternion_to_dcm q d0 0 1 = 2 * (q 1 * q 2 - q 0 * q 3) ∧
    mavlink_quaternion_to_dcm q d0 0 2 = 2 * (q 0 * q 2 + q 1 * q 3) ∧
    mavlink_quaternion_to_dcm q d0 1 0 = 2 * (q 1 * q 2 + q 0 * q 3) ∧
    mavlink_quaternion_to_dcm q d0 1 1
        = (q 0)^2 - (q 1)^2 + (q 2)^2 - (q 3)^2 ∧
    mavlink_quaternion_to_dcm q d0 1 2 = 2 * (q 2 * q 3 - q 0 * q 1) ∧
    mavlink_quaternion_to_dcm q d0 2 0 = 2 * (q 1 * q 3 - q 0 * q 2) ∧
    mavlink_quaternion_to_dcm q d0 2 1 = 2 * (q 0 * q 1 + q 2 * q 3) ∧
    mavlink_quaternion_to_dcm q d0 2 2
        = (q 0)^2 - (q 1)^2 - (q 2)^2 + (q 3)^2 := by
  refine ⟨?_, ?_, ?_, ?_, ?_, ?_, ?_, ?_, ?_⟩ <;>
    · simp [mavlink_quaternion_to_dcm, updM]
      try ring

/-- C5: `mavlink_euler_to_quaternion` returns the half-angle products
`w = cφcθcψ + sφsθsψ`, `x = sφcθcψ - cφsθsψ`, `y = cφsθcψ + sφcθsψ`,
`z = cφcθsψ - sφsθcψ` where `cφ = cos(roll/2)` and so on. -/
theorem euler_to_quaternion_components (roll pitch yaw : ℝ) (q0 : ℕ → ℝ) :
    mavlink_euler_to_quaternion roll pitch yaw q0 0 =
      Real.cos (roll / 2) * Real.cos (pitch / 2) * Real.cos (yaw / 2) +
      Real.sin (roll / 2) * Real.sin (pitch / 2) * Real.sin (yaw / 2) ∧
    mavlink_euler_to_quaternion roll pitch yaw q0 1 =
      Real.sin (roll / 2) * Real.cos (pitch / 2) * Real.cos (yaw / 2) -
      Real.cos (roll / 2) * Real.sin (pitch / 2) * Real.sin (yaw / 2) ∧
    mavlink_euler_to_quaternion roll pitch yaw q0 2 =
      Real.cos (roll / 2) * Real.sin (pitch / 2) * Real.cos (yaw / 2) +
      Real.sin (roll / 2) * Real.cos (pitch / 2) * Real.sin (yaw / 2) ∧
    mavlink_euler_to_quaternion roll pitch yaw q0 3 =
      Real.cos (roll / 2) * Real.cos (pitch / 2) * Real.sin (yaw / 2) -
      Real.sin (roll / 2) * Real.sin (pitch / 2) * Real.cos (yaw / 2) :=
  ⟨euler_to_quaternion_w roll pitch yaw q0,
   euler_to_quaternion_x roll pitch yaw q0,
   euler_to_quaternion_y roll pitch yaw q0,
   euler_to_quaternion_z roll pitch yaw q0⟩

/-- C6: for all Euler angles, without range restriction, the quaternion
written by `mavlink_euler_to_quaternion` has exact unit norm
`w² + x² + y² + z² = 1` (the real-arithmetic content of the claim's
"within floating-point rounding"); the definition performs no
renormalization. -/
theorem euler_to_quaternion_unit_norm (roll pitch yaw : ℝ) (q0 : ℕ → ℝ) :
    (mavlink_euler_to_quaternion roll pitch yaw q0 0)^2 +
    (mavlink_euler_to_quaternion roll pitch yaw q0 1)^2 +
    (mavlink_euler_to_quaternion roll pitch yaw q0 2)^2 +
    (mavlink_euler_to_quaternion roll pitch yaw q0 3)^2 = 1 := by
  rw [euler_to_quaternion_w, euler_to_quaternion_x, euler_to_quaternion_y,
    euler_to_quaternion_z]
  have h1 := Real.sin_sq_add_cos_sq (roll / 2)
  have h2 := Real.sin_sq_add_cos_sq (pitch / 2)
  have h3 := Real.sin_sq_add_cos_sq (yaw / 2)
  linear_combination
    ((Real.cos (pitch / 2))^2 + (Real.sin (pitch / 2))^2) *
      ((Real.cos (yaw / 2))^2 + (Real.sin (yaw / 2))^2) * h1 +
    ((Real.cos (yaw / 2))^2 + (Real.sin (yaw / 2))^2) * h2 + h3

lemma dcm_to_euler_gimbal_eval (d : ℕ → ℕ → ℝ)
    (h : |Real.arcsin (-(d 2 0)) - π / 2| < 1e-3 ∨
      |Real.arcsin (-(d 2 0)) + π / 2| < 1e-3) :
    mavlink_dcm_to_euler d =
      (0, Real.arcsin (-(d 2 0)), atan2 (d 1 2 - d 0 1) (d 0 2 + d 1 1)) := by
  simp only [mavlink_dcm_to_euler]
  split_ifs with h1 h2
  · simp
  · simp
  · exact absurd h (by tauto)

lemma dcm_to_euler_regular_eval (d : ℕ → ℕ → ℝ)
    (h1 : ¬(|Real.arcsin (-(d 2 0)) - π / 2| < 1e-3))
    (h2 : ¬(|Real.arcsin (-(d 2 0)) + π / 2| < 1e-3)) :
    mavlink_dcm_to_euler d =
      (atan2 (d 2 1) (d 2 2), Real.arcsin (-(d 2 0)),
        atan2 (d 1 0) (d 0 0)) := by
  simp only [mavlink_dcm_to_euler]
  rw [if_neg h1, if_neg h2]

lemma idMat_not_gimbal :
    ¬(|Real.arcsin (-(idMat 2 0)) - π / 2| < 1e-3 ∨
      |Real.arcsin (-(idMat 2 0)) + π / 2| < 1e-3) := by
  have e : Real.arcsin (-(idMat 2 0)) = 0 := by simp [idMat]
  have hpi := Real.pi_gt_three
  rw [not_or, e]
  constructor
  · rw [zero_sub, abs_neg, abs_of_nonneg (by positivity)]
    nlinarith
  · rw [zero_add, abs_of_nonneg (by positivity)]
    nlinarith

lemma dcm_to_euler_idMat : mavlink_dcm_to_euler idMat = (0, 0, 0) := by
  have h := idMat_not_gimbal
  rw [not_or] at h
  rw [dcm_to_euler_regular_eval idMat h.1 h.2]
  have e1 : atan2 (idMat 2 1) (idMat 2 2) = 0 := by
    have : (idMat 2 1 : ℝ) = 0 ∧ (idMat 2 2 : ℝ) = 1 := by
      constructor <;> simp [idMat]
    rw [this.1, this.2, atan2_zero_one]
  have e2 : atan2 (idMat 1 0) (idMat 0 0) = 0 := by
    have : (idMat 1 0 : ℝ) = 0 ∧ (idMat 0 0 : ℝ) = 1 := by
      constructor <;> simp [idMat]
    rw [this.1, this.2, atan2_zero_one]
  have e3 : Real.arcsin (-(idMat 2 0)) = 0 := by simp [idMat]
  rw [e1, e2, e3]

/-- C1: `mavlink_dcm_to_euler` enters its gimbal-lock handling exactly when
`θ = asin(-R[2][0])` satisfies `|θ - π/2| < 1e-3` or `|θ + π/2| < 1e-3`,
and in that case it returns `roll = 0` and
`yaw = atan2(R[1][2]-R[0][1], R[0][2]+R[1][1])` (the `±roll` term the two
branches add resp. subtract is `0`, so both branches yield this value). -/
theorem dcm_to_euler_gimbal_branch (d : ℕ → ℕ → ℝ) :
    (gimbal_taken d ↔
      (|Real.arcsin (-(d 2 0)) - π / 2| < 1e-3 ∨
        |Real.arcsin (-(d 2 0)) + π / 2| < 1e-3)) ∧
    ((|Real.arcsin (-(d 2 0)) - π / 2| < 1e-3 ∨
        |Real.arcsin (-(d 2 0)) + π / 2| < 1e-3) →
      (mavlink_dcm_to_euler d).1 = 0 ∧
      (mavlink_dcm_to_euler d).2.2 =
        atan2 (d 1 2 - d 0 1) (d 0 2 + d 1 1)) := by
  constructor
  · unfold gimbal_taken
    tauto
  · intro h
    rw [dcm_to_euler_gimbal_eval d h]
    exact ⟨rfl, rfl⟩

/-- Witness for C1 at `gimbalMat` (pitch exactly `π/2`): the branch is
taken and yields roll `0` and yaw `atan2 0 0 = 0`. -/
theorem dcm_to_euler_gimbal_branch_witness :
    |Real.arcsin (-(gimbalMat 2 0)) - π / 2| < 1e-3 ∧
    gimbal_taken gimbalMat ∧
    (mavlink_dcm_to_euler gimbalMat).1 = 0 ∧
    (mavlink_dcm_to_euler gimbalMat).2.2 = 0 := by
  have hc : |Real.arcsin (-(gimbalMat 2 0)) - π / 2| < 1e-3 := by
    have e : Real.arcsin (-(gimbalMat 2 0)) = π / 2 := by
      simp [gimbalMat, Real.arcsin_one]
    rw [e]
    norm_num
  have h := dcm_to_euler_gimbal_branch gimbalMat
  refine ⟨hc, h.1.mpr (Or.inl hc), (h.2 (Or.inl hc)).1, ?_⟩
  rw [(h.2 (Or.inl hc)).2]
  have e1 : (gimbalMat 1 2 - gimbalMat 0 1 : ℝ) = 0 := by simp [gimbalMat]
  have e2 : (gimbalMat 0 2 + gimbalMat 1 1 : ℝ) = 0 := by simp [gimbalMat]
  rw [e1, e2, atan2_zero_zero]

/-- C3: `mavlink_dcm_to_euler` always returns `pitch = asin(-R[2][0])`
(which lies in `[-π/2, π/2]`, in particular when `|R[2][0]| ≤ 1`), and
outside the gimbal-lock condition returns
`roll = atan2(R[2][1], R[2][2])` and `yaw = atan2(R[1][0], R[0][0])`. -/
theorem dcm_to_euler_regular_branch (d : ℕ → ℕ → ℝ) :
    (mavlink_dcm_to_euler d).2.1 = Real.arcsin (-(d 2 0)) ∧
    (|d 2 0| ≤ 1 →
      (mavlink_dcm_to_euler d).2.1 ∈ Set.Icc (-(π / 2)) (π / 2)) ∧
    (¬(|Real.arcsin (-(d 2 0)) - π / 2| < 1e-3 ∨
        |Real.arcsin (-(d 2 0)) + π / 2| < 1e-3) →
      (mavlink_dcm_to_euler d).1 = atan2 (d 2 1) (d 2 2) ∧
      (mavlink_dcm_to_euler d).2.2 = atan2 (d 1 0) (d 0 0)) := by
  have hp : (mavlink_dcm_to_euler d).2.1 = Real.arcsin (-(d 2 0)) := by
    simp only [mavlink_dcm_to_euler]
    split_ifs <;> rfl
  refine ⟨hp, ?_, ?_⟩
  · intro _
    rw [hp]
    exact Real.arcsin_mem_Icc _
  · intro h
    rw [not_or] at h
    rw [dcm_to_euler_regular_eval d h.1 h.2]
    exact ⟨rfl, rfl⟩

/-- Witness for C3 at the identity matrix: `|R[2][0]| = 0 ≤ 1`, the
gimbal-lock condition fails, and the regular-branch formulas apply. -/
theorem dcm_to_euler_regular_branch_witness :
    |idMat 2 0| ≤ 1 ∧
    ¬(|Real.arcsin (-(idMat 2 0)) - π / 2| < 1e-3 ∨
      |Real.arcsin (-(idMat 2 0)) + π / 2| < 1e-3) ∧
    (mavlink_dcm_to_euler idMat).2.1 ∈ Set.Icc (-(π / 2)) (π / 2) ∧
    (mavlink_dcm_to_euler idMat).1 = atan2 (idMat 2 1) (idMat 2 2) := by
  have hb : |idMat 2 0| ≤ 1 := by
    simp [idMat]
  have h := dcm_to_euler_regular_branch idMat
  exact ⟨hb, idMat_not_gimbal, h.2.1 hb, (h.2.2 idMat_not_gimbal).1⟩

/-- C8: identity round-trips: `mavlink_euler_to_quaternion 0 0 0` writes
`(1,0,0,0)`; `mavlink_quaternion_to_dcm (1,0,0,0)` writes the identity
matrix; `mavlink_dcm_to_euler` of the identity matrix is `(0,0,0)`. -/
theorem identity_round_trip (q0 : ℕ → ℝ) (d0 : ℕ → ℕ → ℝ) :
    (mavlink_euler_to_quaternion 0 0 0 q0 0 = 1 ∧
     mavlink_euler_to_quaternion 0 0 0 q0 1 = 0 ∧
     mavlink_euler_to_quaternion 0 0 0 q0 2 = 0 ∧
     mavlink_euler_to_quaternion 0 0 0 q0 3 = 0) ∧
    (mavlink_quaternion_to_dcm unitQ d0 0 0 = 1 ∧
     mavlink_quaternion_to_dcm unitQ d0 0 1 = 0 ∧
     mavlink_quaternion_to_dcm unitQ d0 0 2 = 0 ∧
     mavlink_quaternion_to_dcm unitQ d0 1 0 = 0 ∧
     mavlink_quaternion_to_dcm unitQ d0 1 1 = 1 ∧
     mavlink_quaternion_to_dcm unitQ d0 1 2 = 0 ∧
     mavlink_quaternion_to_dcm unitQ d0 2 0 = 0 ∧
     mavlink_quaternion_to_dcm unitQ d0 2 1 = 0 ∧
     mavlink_quaternion_to_dcm unitQ d0 2 2 = 1) ∧
    mavlink_dcm_to_euler idMat = (0, 0, 0) := by
  refine ⟨⟨?_, ?_, ?_, ?_⟩, ⟨?_, ?_, ?_, ?_, ?_, ?_, ?_, ?_, ?_⟩,
    dcm_to_euler_idMat⟩ <;>
    simp [mavlink_euler_to_quaternion, mavlink_quaternion_to_dcm, upd,
      updM, unitQ]

/-! ### The non-positive-trace scan of `mavlink_dcm_to_quaternion` -/

lemma dcm_i_sel_cases (d : ℕ → ℕ → ℝ) :
    dcm_i_sel d = 0 ∨ dcm_i_sel d = 1 ∨ dcm_i_sel d = 2 := by
  simp only [dcm_i_sel]
  split_ifs <;> simp

lemma dcm_i_sel_max (d : ℕ → ℕ → ℝ) :
    ∀ m, m < 3 → d m m ≤ d (dcm_i_sel d) (dcm_i_sel d) := by
  simp only [dcm_i_sel]
  split_ifs with h1 h2 <;> push_neg at * <;> intro m hm <;>
    interval_cases m <;> linarith

lemma dcm_i_sel_first_max (d : ℕ → ℕ → ℝ) :
    ∀ m, m < dcm_i_sel d → d m m < d (dcm_i_sel d) (dcm_i_sel d) := by
  simp only [dcm_i_sel]
  split_ifs with h1 h2 <;> push_neg at * <;> intro m hm <;>
    interval_cases m <;> linarith

lemma dcm_to_quaternion_else_eval (d : ℕ → ℕ → ℝ) (q0 : ℕ → ℝ)
    (htr : d 0 0 + d 1 1 + d 2 2 ≤ 0) :
    (mavlink_dcm_to_quaternion d q0).2 (dcm_i_sel d + 1) =
      shepherd_s d / 2 ∧
    (mavlink_dcm_to_quaternion d q0).2 (dcm_j_sel d + 1) =
      (d (dcm_i_sel d) (dcm_j_sel d) + d (dcm_j_sel d) (dcm_i_sel d)) *
        (0.5 / shepherd_s d) ∧
    (mavlink_dcm_to_quaternion d q0).2 (dcm_k_sel d + 1) =
      (d (dcm_k_sel d) (dcm_i_sel d) + d (dcm_i_sel d) (dcm_k_sel d)) *
        (0.5 / shepherd_s d) ∧
    (mavlink_dcm_to_quaternion d q0).2 0 =
      (d (dcm_k_sel d) (dcm_j_sel d) - d (dcm_j_sel d) (dcm_k_sel d)) *
        (0.5 / shepherd_s d) := by
  have hs : shepherd_s d = Real.sqrt ((d (dcm_i_sel d) (dcm_i_sel d) -
      d (dcm_j_sel d) (dcm_j_sel d) - d (dcm_k_sel d) (dcm_k_sel d)) + 1) :=
    rfl
  rcases dcm_i_sel_cases d with h0 | h0 | h0 <;>
    · simp only [mavlink_dcm_to_quaternion, if_neg (not_lt.mpr htr),
        dcm_j_sel, dcm_k_sel, hs, h0] at *
      refine ⟨?_, ?_, ?_, ?_⟩ <;> norm_num [upd] <;> ring


/-- C2: `mavlink_dcm_to_quaternion` branches on the trace: for `tr > 0` it
returns `w = sqrt(tr+1)/2` and `x, y, z` as the off-diagonal differences
times `s' = 0.5/sqrt(tr+1)`; for `tr ≤ 0` it picks the lowest index `i`
maximizing the diagonal (strict-greater scan from 0), sets
`j = (i+1) % 3`, `k = (i+2) % 3`, `s = sqrt(R[i][i]-R[j][j]-R[k][k]+1)`,
component `i+1 = s/2`, component `j+1 = (R[i][j]+R[j][i])·s'`, component
`k+1 = (R[k][i]+R[i][k])·s'`, `w = (R[k][j]-R[j][k])·s'` with `s' = 0.5/s`. -/
theorem dcm_to_quaternion_branches (d : ℕ → ℕ → ℝ) (q0 : ℕ → ℝ) :
    (0 < d 0 0 + d 1 1 + d 2 2 →
      (mavlink_dcm_to_quaternion d q0).2 0 =
        Real.sqrt (d 0 0 + d 1 1 + d 2 2 + 1) / 2 ∧
      (mavlink_dcm_to_quaternion d q0).2 1 =
        (d 2 1 - d 1 2) * (0.5 / Real.sqrt (d 0 0 + d 1 1 + d 2 2 + 1)) ∧
      (mavlink_dcm_to_quaternion d q0).2 2 =
        (d 0 2 - d 2 0) * (0.5 / Real.sqrt (d 0 0 + d 1 1 + d 2 2 + 1)) ∧
      (mavlink_dcm_to_quaternion d q0).2 3 =
        (d 1 0 - d 0 1) * (0.5 / Real.sqrt (d 0 0 + d 1 1 + d 2 2 + 1))) ∧
    (d 0 0 + d 1 1 + d 2 2 ≤ 0 →
      dcm_i_sel d < 3 ∧
      (∀ m, m < 3 → d m m ≤ d (dcm_i_sel d) (dcm_i_sel d)) ∧
      (∀ m, m < dcm_i_sel d → d m m < d (dcm_i_sel d) (dcm_i_sel d)) ∧
      dcm_j_sel d = (dcm_i_sel d + 1) % 3 ∧
      dcm_k_sel d = (dcm_i_sel d + 2) % 3 ∧
      (mavlink_dcm_to_quaternion d q0).2 (dcm_i_sel d + 1) =
        shepherd_s d / 2 ∧
      (mavlink_dcm_to_quaternion d q0).2 (dcm_j_sel d + 1) =
        (d (dcm_i_sel d) (dcm_j_sel d) + d (dcm_j_sel d) (dcm_i_sel d)) *
          (0.5 / shepherd_s d) ∧
      (mavlink_dcm_to_quaternion d q0).2 (dcm_k_sel d + 1) =
        (d (dcm_k_sel d) (dcm_i_sel d) + d (dcm_i_sel d) (dcm_k_sel d)) *
          (0.5 / shepherd_s d) ∧
      (mavlink_dcm_to_quaternion d q0).2 0 =
        (d (dcm_k_sel d) (dcm_j_sel d) - d (dcm_j_sel d) (dcm_k_sel d)) *
          (0.5 / shepherd_s d)) := by
  constructor
  · intro htr
    simp only [mavlink_dcm_to_quaternion, if_pos htr]
    refine ⟨?_, ?_, ?_, ?_⟩ <;> norm_num [upd] <;> ring
  · intro htr
    have hlt : dcm_i_sel d < 3 := by
      rcases dcm_i_sel_cases d with h0 | h0 | h0 <;> omega
    have he := dcm_to_quaternion_else_eval d q0 htr
    exact ⟨hlt, dcm_i_sel_max d, dcm_i_sel_first_max d, rfl, rfl,
      he.1, he.2.1, he.2.2.1, he.2.2.2⟩

/-- Witness for C2 at `diag(1, -1, -1)` (trace `-1 ≤ 0`): the scan picks
index `0`, `s = sqrt(4)`, and the written quaternion is `(0, 1, 0, 0)`. -/
theorem dcm_to_quaternion_branches_witness :
    diagXMat 0 0 + diagXMat 1 1 + diagXMat 2 2 ≤ 0 ∧
    dcm_i_sel diagXMat = 0 ∧
    (mavlink_dcm_to_quaternion diagXMat zeroQ).2 1 = 1 ∧
    (mavlink_dcm_to_quaternion diagXMat zeroQ).2 0 = 0 := by
  have htr : diagXMat 0 0 + diagXMat 1 1 + diagXMat 2 2 ≤ 0 := by
    norm_num [diagXMat]
  have hi : dcm_i_sel diagXMat = 0 := by
    norm_num [dcm_i_sel, diagXMat]
  have h := (dcm_to_quaternion_branches diagXMat zeroQ).2 htr
  have hs : shepherd_s diagXMat = 2 := by
    have h4 : shepherd_s diagXMat = Real.sqrt 4 := by
      norm_num [shepherd_s, dcm_j_sel, dcm_k_sel, hi, diagXMat]
    rw [h4, show (4:ℝ) = 2^2 by norm_num, Real.sqrt_sq (by norm_num : (0:ℝ) ≤ 2)]
  refine ⟨htr, hi, ?_, ?_⟩
  · have h1 := h.2.2.2.2.2.1
    rw [hi, hs] at h1
    norm_num at h1
    exact h1
  · have h0 := h.2.2.2.2.2.2.2.2
    rw [hs] at h0
    rw [h0]
    have hj : dcm_j_sel diagXMat = 1 := by
      norm_num [dcm_j_sel, hi]
    have hk : dcm_k_sel diagXMat = 2 := by
      norm_num [dcm_k_sel, hi]
    rw [hj, hk]
    norm_num [diagXMat]

/-- C9: `mavlink_dcm_to_quaternion` never modifies the matrix array: the
state threaded for `dcm` is returned unchanged in both branches; only the
quaternion components are written. -/
theorem dcm_to_quaternion_preserves_dcm (d : ℕ → ℕ → ℝ) (q0 : ℕ → ℝ) :
    (mavlink_dcm_to_quaternion d q0).1 = d := by
  simp only [mavlink_dcm_to_quaternion]
  split_ifs <;> rfl

/-- C10: in the non-positive-trace branch, `dcm_i`, `dcm_j`, `dcm_k` all
lie in `{0,1,2}`, the quaternion write indices `dcm_i+1`, `dcm_j+1`,
`dcm_k+1`, `0` all lie in `0..3`, and together they hit each of the four
components exactly once. -/
theorem dcm_to_quaternion_index_bounds (d : ℕ → ℕ → ℝ)
    (htr : d 0 0 + d 1 1 + d 2 2 ≤ 0) :
    dcm_i_sel d < 3 ∧ dcm_j_sel d < 3 ∧ dcm_k_sel d < 3 ∧
    dcm_i_sel d + 1 ≤ 3 ∧ dcm_j_sel d + 1 ≤ 3 ∧ dcm_k_sel d + 1 ≤ 3 ∧
    ({0, dcm_i_sel d + 1, dcm_j_sel d + 1, dcm_k_sel d + 1} : Multiset ℕ) =
      {0, 1, 2, 3} := by
  have hj : dcm_j_sel d = (dcm_i_sel d + 1) % 3 := rfl
  have hk : dcm_k_sel d = (dcm_i_sel d + 2) % 3 := rfl
  rcases dcm_i_sel_cases d with h0 | h0 | h0 <;>
    · rw [hj, hk, h0]
      refine ⟨by norm_num, by norm_num, by norm_num, by norm_num,
        by norm_num, by norm_num, by decide⟩

/-- Witness for C10 at `diag(-1, -1, 1)` (trace `-1 ≤ 0`, maximum diagonal
at index `2`): the selected indices are in bounds and the write indices
cover `{0,1,2,3}` exactly. -/
theorem dcm_to_quaternion_index_bounds_witness :
    diagZMat 0 0 + diagZMat 1 1 + diagZMat 2 2 ≤ 0 ∧
    dcm_i_sel diagZMat = 2 ∧
    dcm_i_sel diagZMat < 3 ∧
    ({0, dcm_i_sel diagZMat + 1, dcm_j_sel diagZMat + 1,
      dcm_k_sel diagZMat + 1} : Multiset ℕ) = {0, 1, 2, 3} := by
  have htr : diagZMat 0 0 + diagZMat 1 1 + diagZMat 2 2 ≤ 0 := by
    norm_num [diagZMat]
  have hi : dcm_i_sel diagZMat = 2 := by
    norm_num [dcm_i_sel, diagZMat]
  have h := dcm_to_quaternion_index_bounds diagZMat htr
  exact ⟨htr, hi, h.1, h.2.2.2.2.2.2⟩

/-! ### Round trip Euler → matrix → Euler -/

lemma euler_to_dcm_entries (r p y : ℝ) (d0 : ℕ → ℕ → ℝ) :
    mavlink_euler_to_dcm r p y d0 2 0 = -Real.sin p ∧
    mavlink_euler_to_dcm r p y d0 2 1 = Real.sin r * Real.cos p ∧
    mavlink_euler_to_dcm r p y d0 2 2 = Real.cos r * Real.cos p ∧
    mavlink_euler_to_dcm r p y d0 1 0 = Real.cos p * Real.sin y ∧
    mavlink_euler_to_dcm r p y d0 0 0 = Real.cos p * Real.cos y := by
  refine ⟨?_, ?_, ?_, ?_, ?_⟩ <;> simp [mavlink_euler_to_dcm, updM]

/-- C7: for roll and yaw in `(-π, π]` (the range of `atan2`) and pitch
strictly inside `(-π/2 + 1e-3, π/2 - 1e-3)` (away from the gimbal-lock
threshold), `mavlink_dcm_to_euler (mavlink_euler_to_dcm r p y)` recovers
`(r, p, y)` exactly. -/
theorem euler_dcm_round_trip (r p y : ℝ) (d0 : ℕ → ℕ → ℝ)
    (hr : r ∈ Set.Ioc (-π) π) (hy : y ∈ Set.Ioc (-π) π)
    (hp : -(π / 2) + 1e-3 < p ∧ p < π / 2 - 1e-3) :
    mavlink_dcm_to_euler (mavlink_euler_to_dcm r p y d0) = (r, p, y) := by
  obtain ⟨e20, e21, e22, e10, e00⟩ := euler_to_dcm_entries r p y d0
  set R := mavlink_euler_to_dcm r p y d0 with hR
  have hmil : (0 : ℝ) < 1e-3 := by norm_num
  have hθ : Real.arcsin (-(R 2 0)) = p := by
    rw [e20, neg_neg]
    exact Real.arcsin_sin (by linarith [hp.1]) (by linarith [hp.2])
  have h1 : ¬(|Real.arcsin (-(R 2 0)) - π / 2| < 1e-3) := by
    rw [hθ]
    intro hcon
    rw [abs_lt] at hcon
    linarith [hcon.1, hp.2]
  have h2 : ¬(|Real.arcsin (-(R 2 0)) + π / 2| < 1e-3) := by
    rw [hθ]
    intro hcon
    rw [abs_lt] at hcon
    linarith [hcon.2, hp.1]
  rw [dcm_to_euler_regular_eval R h1 h2]
  have hcp : 0 < Real.cos p :=
    Real.cos_pos_of_mem_Ioo ⟨by linarith [hp.1], by linarith [hp.2]⟩
  have hroll : atan2 (R 2 1) (R 2 2) = r := by
    rw [e21, e22, mul_comm (Real.sin r) (Real.cos p),
      mul_comm (Real.cos r) (Real.cos p)]
    exact atan2_mul_sin_cos hcp hr
  have hyaw : atan2 (R 1 0) (R 0 0) = y := by
    rw [e10, e00]
    exact atan2_mul_sin_cos hcp hy
  rw [hθ, hroll, hyaw]

/-- Witness for C7 at `(r, p, y) = (1, 0, -1)`: the hypotheses hold and the
round trip through the rotation matrix returns `(1, 0, -1)` exactly. -/
theorem euler_dcm_round_trip_witness :
    (1 : ℝ) ∈ Set.Ioc (-π) π ∧ (-1 : ℝ) ∈ Set.Ioc (-π) π ∧
    (-(π / 2) + 1e-3 < (0 : ℝ) ∧ (0 : ℝ) < π / 2 - 1e-3) ∧
    mavlink_dcm_to_euler (mavlink_euler_to_dcm 1 0 (-1) zeroM) =
      (1, 0, -1) := by
  have hpi := Real.pi_gt_three
  have hr : (1 : ℝ) ∈ Set.Ioc (-π) π := ⟨by linarith, by linarith⟩
  have hy : (-1 : ℝ) ∈ Set.Ioc (-π) π := ⟨by linarith, by linarith⟩
  have hp : -(π / 2) + 1e-3 < (0 : ℝ) ∧ (0 : ℝ) < π / 2 - 1e-3 :=
    ⟨by linarith, by linarith⟩
  exact ⟨hr, hy, hp, euler_dcm_round_trip 1 0 (-1) zeroM hr hy hp⟩
